import Mathlib

/-!
Verification of the CoDel (Controlled Delay) active queue management
discipline of `src/traffic-control/model/codel-queue-disc.h`.

Only the header (declarations, constants and their documentation) of the
CoDel queue disc is present in the sources; the member-function bodies
live in a `.cc` file that is not part of this snapshot.  The constants
`CODEL_SHIFT`, `REC_INV_SQRT_BITS` and `REC_INV_SQRT_SHIFT` are taken
from the header; every function body below is modelled from the
specification (its doc comment says so explicitly), faithful to the
spec's wording, with fixed-point arithmetic transcribed at the reference
bit widths the header fixes (16-bit reciprocal, 32-bit CoDel time).

Machine integers are modelled as `Nat` with explicit reduction
`% 2^32` / `% 2^64` where C unsigned overflow matters.
-/

namespace CoDel

/-- From the header (`src/.../codel-queue-disc.h`, line 38): number of
bits discarded from the time representation; the time is assumed to be
in nanoseconds. -/
def CODEL_SHIFT : Nat := 10

/-- From the header: `REC_INV_SQRT_BITS = 8 * sizeof(uint16_t) = 16`. -/
def REC_INV_SQRT_BITS : Nat := 16

/-- From the header: `REC_INV_SQRT_SHIFT = 32 - REC_INV_SQRT_BITS = 16`. -/
def REC_INV_SQRT_SHIFT : Nat := 32 - REC_INV_SQRT_BITS

/-- Modelled from the spec: the body of `CoDelQueueDisc::Time2CoDel` is
absent from the sources.  The spec describes a 32-bit unsigned counter of
elapsed time; the header states (lines 34-38) that the input time is in
nanoseconds and that `CODEL_SHIFT = 10` bits of it are discarded, so the
CoDel value of a time of `tNanos` nanoseconds is
`(tNanos >> CODEL_SHIFT)` truncated to 32 bits. -/
def Time2CoDel (tNanos : Nat) : Nat :=
  (tNanos >>> CODEL_SHIFT) % 2 ^ 32

/-- Reinterpret a 32-bit unsigned value as a signed two's-complement
32-bit integer (the `(i32)` cast of the spec's Time Codec). -/
def toInt32 (n : Nat) : Int :=
  if n % 2 ^ 32 < 2 ^ 31 then (n % 2 ^ 32 : Int) else (n % 2 ^ 32 : Int) - 2 ^ 32

/-- 32-bit wrapping subtraction `a - b` on CoDel times. -/
def codelSub (a b : Nat) : Nat :=
  (a + (2 ^ 32 - b % 2 ^ 32)) % 2 ^ 32

/-- Modelled from the spec: body of `CoDelQueueDisc::CoDelTimeAfter` is
absent from the sources.  Spec (Time Codec): `after(a,b) ⇔ (i32)(a - b) > 0`. -/
def CoDelTimeAfter (a b : Nat) : Bool :=
  0 < toInt32 (codelSub a b)

/-- Modelled from the spec: body of `CoDelQueueDisc::CoDelTimeAfterEq` is
absent from the sources; derived the same way as `after`. -/
def CoDelTimeAfterEq (a b : Nat) : Bool :=
  0 ≤ toInt32 (codelSub a b)

/-- Modelled from the spec: body of `CoDelQueueDisc::CoDelTimeBefore` is
absent from the sources; derived the same way as `after`. -/
def CoDelTimeBefore (a b : Nat) : Bool :=
  toInt32 (codelSub a b) < 0

/-- Modelled from the spec: body of `CoDelQueueDisc::CoDelTimeBeforeEq` is
absent from the sources; derived the same way as `after`. -/
def CoDelTimeBeforeEq (a b : Nat) : Bool :=
  toInt32 (codelSub a b) ≤ 0

/-- Modelled from the spec: the body of `CoDelQueueDisc::NewtonStep` is
absent from the sources.  The spec prescribes the Newton-Raphson
iteration `recInvSqrt' = recInvSqrt − (recInvSqrt × ((recInvSqrt² ×
count) − 3)) / 2` "evaluated entirely in fixed-point integer arithmetic
at the same bit width and rounding as the reference implementation"
(16-bit reciprocal per `REC_INV_SQRT_BITS`).  This transcribes the
reference fixed-point evaluation: the Q0.16 reciprocal is widened to
Q0.32, the 3 is scaled to Q2.32, intermediates are 64-bit with C
unsigned wrap, the product is pre-shifted by 2 to avoid overflow and the
result is truncated back to 16 bits. -/
def NewtonStep (recInvSqrt count : Nat) : Nat :=
  let invsqrt := (recInvSqrt <<< REC_INV_SQRT_SHIFT) % 2 ^ 32
  let invsqrt2 := (invsqrt * invsqrt) >>> 32
  let val := (3 * 2 ^ 32 + 2 ^ 64 - (count * invsqrt2) % 2 ^ 64) % 2 ^ 64
  let val2 := val >>> 2
  let val3 := ((val2 * invsqrt) % 2 ^ 64) >>> (32 - 2 + 1)
  (val3 >>> REC_INV_SQRT_SHIFT) % 2 ^ 16

/-- Modelled from the spec: the body of `CoDelQueueDisc::ControlLaw` is
absent from the sources.  Spec: `ControlLaw(t, interval, recInvSqrt) =
t + interval × recInvSqrt` in fixed point, the 16-bit reciprocal widened
by the matching shift and the product taken high-word
(`(interval * (recInvSqrt << REC_INV_SQRT_SHIFT)) >> 32`), added to `t`
in 32-bit CoDel time. -/
def ControlLaw (t interval recInvSqrt : Nat) : Nat :=
  (t + (interval * ((recInvSqrt <<< REC_INV_SQRT_SHIFT) % 2 ^ 32)) >>> 32) % 2 ^ 32

/-- ECN codepoint of a packet (spec data model). -/
inductive Ecn where
  | NotECT
  | ECT0
  | ECT1
  | CE

deriving instance DecidableEq, Repr for Ecn

/-- A queued item: byte size, ECN codepoint, enqueue timestamp in CoDel
time units (spec data model `QueueItem`). -/
structure Item where
  bytes : Nat
  ecn : Ecn
  ts : Nat

deriving instance DecidableEq, Repr for Item

/-- Drop/mark reason taxonomy of the header: `OVERLIMIT_DROP`,
`TARGET_EXCEEDED_DROP`, `TARGET_EXCEEDED_MARK`,
`CE_THRESHOLD_EXCEEDED_MARK`. -/
inductive Reason where
  | OverlimitDrop
  | TargetExceededDrop
  | TargetExceededMark
  | CeThresholdExceededMark

deriving instance DecidableEq, Repr for Reason

/-- Configuration of the discipline (header members `m_target`,
`m_interval`, `m_minBytes`, `m_ceThreshold`, `m_useEcn`, `m_useL4s`),
durations in CoDel time units. -/
structure Config where
  target : Nat
  interval : Nat
  minBytes : Nat
  ceThreshold : Nat
  useEcn : Bool
  useL4s : Bool

deriving instance DecidableEq, Repr for Config

/-- Mutable AQM state (header members `m_dropping`, `m_firstAboveTime`,
`m_dropNext`, `m_count`, `m_lastCount`, `m_recInvSqrt`);
`firstAboveTime` is an `Option` per the spec data model, `none` meaning
"not yet observed". -/
structure CoDelState where
  dropping : Bool
  firstAboveTime : Option Nat
  dropNext : Nat
  count : Nat
  lastCount : Nat
  recInvSqrt : Nat

deriving instance DecidableEq, Repr for CoDelState

/-- Bytes currently in the queue (the Backlog Accountant view). -/
def backlogBytes (q : List Item) : Nat :=
  (q.map Item.bytes).sum

/-- Modelled from the spec: the body of `CoDelQueueDisc::OkToDrop` is
absent from the sources.  Spec §4.3: compute `sojourn = now - ts`; if
sojourn is below target or the backlog is below `minBytes`, reset
`firstAboveTime` to `none` and answer `false`; otherwise if
`firstAboveTime` is `none`, set it to `now + interval` and answer
`false`; otherwise answer whether `now >= firstAboveTime`.  Returns the
answer together with the updated `firstAboveTime`. -/
def okToDrop (cfg : Config) (backlog ts now : Nat) (fat : Option Nat) :
    Bool × Option Nat :=
  let sojourn := codelSub now ts
  if CoDelTimeBefore sojourn cfg.target ∨ backlog < cfg.minBytes then
    (false, none)
  else
    match fat with
    | none => (false, some ((now + cfg.interval) % 2 ^ 32))
    | some f => (CoDelTimeAfterEq now f, some f)

/-- `true` when a decided drop becomes a CE mark instead (spec §4.7:
`useEcn` and the codepoint is `ECT0` or `ECT1`). -/
def ecnMark (cfg : Config) (i : Item) : Bool :=
  cfg.useEcn && (match i.ecn with
    | Ecn.ECT0 => true
    | Ecn.ECT1 => true
    | _ => false)

/-- Set the item's codepoint to `CE`. -/
def markCE (i : Item) : Item :=
  { i with ecn := Ecn.CE }

/-- Modelled from the spec: part of the missing `DoDequeue` body.
Transition `NotDropping`, `OkToDrop==true` (spec §4.4): enter
`Dropping`, set `count = 1`, refine `recInvSqrt` by one Newton step
seeded from its prior value, set
`dropNext = ControlLaw(now, interval, recInvSqrt)`. -/
def enterDropState (cfg : Config) (now : Nat) (s : CoDelState) : CoDelState :=
  let ris := NewtonStep s.recInvSqrt 1
  { s with dropping := true, count := 1, recInvSqrt := ris,
           dropNext := ControlLaw now cfg.interval ris }

/-- Modelled from the spec: the chase-adjustment trigger of §4.4,
`now - dropNext >= 8*interval` or `now - firstAboveTime < 2*interval`,
differences taken in wrapping 32-bit CoDel time. -/
def chaseTrigger (interval now dropNext : Nat) (fat : Option Nat) : Bool :=
  decide (8 * interval ≤ codelSub now dropNext) ||
    match fat with
    | some f => decide (codelSub now f < 2 * interval)
    | none => false

/-- Modelled from the spec: part of the missing `DoDequeue` body.
Transition `Dropping`, `OkToDrop==true`, `now >= dropNext` (spec §4.4):
record `lastCount = count` before adjustment; if the chase trigger
holds, decrement `count` toward `lastCount`, otherwise increment it by
one; refine `recInvSqrt` with the updated count; schedule
`dropNext = ControlLaw(dropNext, interval, recInvSqrt)` relative to the
previous scheduled instant. -/
def continueDropState (cfg : Config) (now : Nat) (s : CoDelState) : CoDelState :=
  let c := if chaseTrigger cfg.interval now s.dropNext s.firstAboveTime then
             max s.lastCount (s.count - 1)
           else
             s.count + 1
  let ris := NewtonStep s.recInvSqrt c
  { s with count := c, lastCount := s.count, recInvSqrt := ris,
           dropNext := ControlLaw s.dropNext cfg.interval ris }

/-- Result of one dequeue invocation: the delivered item (with its mark
reason when it was marked), the remaining queue, the new AQM state and
the items actually dropped (with reasons) while looping past drops. -/
structure DequeueResult where
  delivered : Option (Item × Option Reason)
  queue : List Item
  state : CoDelState
  drops : List (Item × Reason)

deriving instance DecidableEq, Repr for DequeueResult

/-- Modelled from the spec: the body of `CoDelQueueDisc::DoDequeue` is
absent from the sources.  Spec §4.4/§4.7: on an empty queue answer
`none` and leave the dropping state; otherwise examine the head: the
always-active L4S path marks an `ECT1` head CE when its sojourn exceeds
`ceThreshold`; otherwise run `OkToDrop` and the dropping state machine,
and whenever a decided drop is an actual drop (not an ECN mark),
continue to the next queued item so a drop is invisible to the caller
unless the queue becomes empty. -/
def doDequeue (cfg : Config) (now : Nat) :
    List Item → CoDelState → DequeueResult
  | [], s => ⟨none, [], { s with dropping := false }, []⟩
  | item :: rest, s =>
    if cfg.useL4s ∧ item.ecn = Ecn.ECT1 ∧ cfg.ceThreshold < codelSub now item.ts then
      ⟨some (markCE item, some Reason.CeThresholdExceededMark), rest, s, []⟩
    else
      let ok2 := okToDrop cfg (backlogBytes (item :: rest)) item.ts now s.firstAboveTime
      let s1 := { s with firstAboveTime := ok2.2 }
      if s.dropping then
        if ok2.1 then
          if CoDelTimeBefore now s.dropNext then
            ⟨some (item, none), rest, s1, []⟩
          else
            let s2 := continueDropState cfg now s1
            if ecnMark cfg item then
              ⟨some (markCE item, some Reason.TargetExceededMark), rest, s2, []⟩
            else
              let r := doDequeue cfg now rest s2
              ⟨r.delivered, r.queue, r.state, (item, Reason.TargetExceededDrop) :: r.drops⟩
        else
          ⟨some (item, none), rest, { s1 with dropping := false }, []⟩
      else
        if ok2.1 then
          let s2 := enterDropState cfg now s1
          if ecnMark cfg item then
            ⟨some (markCE item, some Reason.TargetExceededMark), rest, s2, []⟩
          else
            let r := doDequeue cfg now rest s2
            ⟨r.delivered, r.queue, r.state, (item, Reason.TargetExceededDrop) :: r.drops⟩
        else
          ⟨some (item, none), rest, s1, []⟩

/-- Capacity limit unit of the externally configured `QueueSize`
(packets or bytes). -/
inductive SizeUnit where
  | packets
  | bytes

deriving instance DecidableEq, Repr for SizeUnit

/-- `true` when adding an item of `sz` bytes to `q` would exceed the
configured capacity limit. -/
def wouldExceed (unit : SizeUnit) (maxSize : Nat) (q : List Item) (sz : Nat) : Bool :=
  match unit with
  | SizeUnit.packets => decide (maxSize < q.length + 1)
  | SizeUnit.bytes => decide (maxSize < backlogBytes q + sz)

/-- Modelled from the spec: the body of `CoDelQueueDisc::DoEnqueue` is
absent from the sources.  Spec §4.2: an item that would exceed the
capacity limit is rejected with reason `OverlimitDrop` and never enters
the queue (a normal `false` result, not a fault); otherwise it is
appended at the FIFO tail stamped with the current time. -/
def doEnqueue (unit : SizeUnit) (maxSize : Nat) (now : Nat) (q : List Item)
    (sz : Nat) (e : Ecn) : Bool × List Item × Option Reason :=
  if wouldExceed unit maxSize q sz then
    (false, q, some Reason.OverlimitDrop)
  else
    (true, q ++ [⟨sz, e, now⟩], none)

/-!  Theorems  -/

/-- C1: one invocation of `NewtonStep` evaluates the Newton iteration
`recInvSqrt − (recInvSqrt × ((recInvSqrt² × count) − 3)) / 2` in 16-bit
fixed point; on the reference seed `0xffff` (the maximal 16-bit value,
representing count ≈ 0) it reproduces the exact fixed-point golden
values `0xffff` for `count = 1` and then `0x8001` for `count = 2`, each
within `2⁻¹⁵` of the exact rational Newton iterate
`r·(3 − count·r²)/2`, and every output fits in 16 bits. -/
theorem newtonStep_reference_golden :
    NewtonStep 65535 1 = 65535 ∧
    NewtonStep (NewtonStep 65535 1) 2 = 32769 ∧
    |(NewtonStep 65535 1 : ℚ) / 2 ^ 16 -
      (65535 / 65536 : ℚ) * (3 - 1 * (65535 / 65536 : ℚ) ^ 2) / 2| ≤ 1 / 2 ^ 15 ∧
    |(NewtonStep (NewtonStep 65535 1) 2 : ℚ) / 2 ^ 16 -
      (65535 / 65536 : ℚ) * (3 - 2 * (65535 / 65536 : ℚ) ^ 2) / 2| ≤ 1 / 2 ^ 15 ∧
    ∀ r c, NewtonStep r c < 2 ^ 16 := by
  have h1 : NewtonStep 65535 1 = 65535 := by decide
  have h2 : NewtonStep (NewtonStep 65535 1) 2 = 32769 := by decide
  refine ⟨h1, h2, ?_, ?_, ?_⟩
  · rw [h1]
    rw [abs_le]
    constructor <;> norm_num
  · rw [h2]
    rw [abs_le]
    constructor <;> norm_num
  · intro r c
    show (_ >>> REC_INV_SQRT_SHIFT) % 2 ^ 16 < 2 ^ 16
    exact Nat.mod_lt _ (by norm_num)

/-- C5: `ControlLaw t interval recInvSqrt` adds to `t` the product of
`interval` with the Q0.16 fraction `recInvSqrt / 2¹⁶`: for every 16-bit
`recInvSqrt`, the widen-multiply-shift equals
`(t + interval · recInvSqrt / 2¹⁶) mod 2³²`, i.e. the scale factors
match so the multiply-and-shift computes `t + interval × recInvSqrt`
without any division or square root. -/
theorem controlLaw_fixed_point (t interval r : Nat) (h : r < 2 ^ 16) :
    ControlLaw t interval r = (t + interval * r / 2 ^ 16) % 2 ^ 32 := by
  show (t + (interval * ((r <<< REC_INV_SQRT_SHIFT) % 2 ^ 32)) >>> 32) % 2 ^ 32 = _
  have hs : REC_INV_SQRT_SHIFT = 16 := rfl
  rw [hs, Nat.shiftLeft_eq, Nat.shiftRight_eq_div_pow]
  have hlt : r * 2 ^ 16 < 2 ^ 32 := by
    have := Nat.mul_lt_mul_of_lt_of_le h (Nat.le_refl (2 ^ 16)) (by norm_num)
    calc r * 2 ^ 16 < 2 ^ 16 * 2 ^ 16 := this
    _ = 2 ^ 32 := by norm_num
  rw [Nat.mod_eq_of_lt hlt]
  congr 2
  rw [show (2 : Nat) ^ 32 = 2 ^ 16 * 2 ^ 16 by norm_num]
  rw [← Nat.mul_assoc, Nat.mul_div_mul_right _ _ (by norm_num : (0 : Nat) < 2 ^ 16)]

/-- Witness for C5 at `t = 2`, `interval = 102400`,
`recInvSqrt = 46340 ≈ 2¹⁶/√2`. -/
theorem controlLaw_fixed_point_witness :
    ControlLaw 2 102400 46340 = (2 + 102400 * 46340 / 2 ^ 16) % 2 ^ 32 :=
  controlLaw_fixed_point 2 102400 46340 (by decide)

/-- C7 counterexample: the CoDel time unit is not exactly one
microsecond: at `t` = 1 ms = 1000000 ns the elapsed-microsecond count is
1000, but `Time2CoDel` yields `1000000 >> 10 = 976`. -/
theorem time2codel_not_exact_microseconds :
    Time2CoDel 1000000 = 976 ∧ 1000000 / 1000 = 1000 ∧
    Time2CoDel 1000000 ≠ 1000000 / 1000 := by
  refine ⟨by decide, by decide, by decide⟩

/-- C7 (amended): `Time2CoDel` represents a time of `tNanos` nanoseconds
as a 32-bit unsigned count of elapsed units of `2^CODEL_SHIFT = 1024`
nanoseconds (approximately one microsecond): it equals
`tNanos / 1024 mod 2³²`, increases by one every 1024 ns, and wraps with
period `2³² × 1024` ns (≈ 73.3 minutes). -/
theorem time2codel_unit_1024ns (tNanos : Nat) :
    Time2CoDel tNanos = tNanos / 1024 % 2 ^ 32 ∧
    Time2CoDel (tNanos + 1024) = (Time2CoDel tNanos + 1) % 2 ^ 32 ∧
    Time2CoDel (tNanos + 2 ^ 32 * 1024) = Time2CoDel tNanos := by
  have hu : ∀ m : Nat, Time2CoDel m = m / 1024 % 2 ^ 32 := by
    intro m
    show (m >>> CODEL_SHIFT) % 2 ^ 32 = _
    rw [Nat.shiftRight_eq_div_pow]
    rfl
  refine ⟨hu tNanos, ?_, ?_⟩
  · rw [hu, hu]
    omega
  · rw [hu, hu]
    omega

/-- C6: the CoDel time comparisons use signed-difference semantics,
`after(a,b) ⇔ (i32)(a − b) > 0`, with the three other comparisons
derived the same way, and this orders times correctly across 32-bit
wraparound: for every 32-bit time `a` and every positive distance
`d < 2³¹`, the wrapped successor `(a + d) mod 2³²` is strictly after
`a` under all four comparisons — even when its raw unsigned value is
smaller than `a`. -/
theorem codelTime_wraparound_order (a d : Nat) (ha : a < 2 ^ 32)
    (hd0 : 0 < d) (hd : d < 2 ^ 31) :
    (∀ x y : Nat, CoDelTimeAfter x y = decide (0 < toInt32 (codelSub x y)) ∧
       CoDelTimeBefore x y = decide (toInt32 (codelSub x y) < 0) ∧
       CoDelTimeAfterEq x y = decide (0 ≤ toInt32 (codelSub x y)) ∧
       CoDelTimeBeforeEq x y = decide (toInt32 (codelSub x y) ≤ 0)) ∧
    CoDelTimeAfter ((a + d) % 2 ^ 32) a = true ∧
    CoDelTimeAfterEq ((a + d) % 2 ^ 32) a = true ∧
    CoDelTimeBefore a ((a + d) % 2 ^ 32) = true ∧
    CoDelTimeBeforeEq a ((a + d) % 2 ^ 32) = true ∧
    CoDelTimeAfter a ((a + d) % 2 ^ 32) = false ∧
    CoDelTimeBeforeEq ((a + d) % 2 ^ 32) a = false := by
  have hsub1 : codelSub ((a + d) % 2 ^ 32) a = d := by
    unfold codelSub
    omega
  have hsub2 : codelSub a ((a + d) % 2 ^ 32) = 2 ^ 32 - d := by
    unfold codelSub
    omega
  have hi1 : toInt32 d = (d : Int) := by
    unfold toInt32
    rw [if_pos (by omega : d % 2 ^ 32 < 2 ^ 31)]
    omega
  have hi2 : toInt32 (2 ^ 32 - d) = -(d : Int) := by
    unfold toInt32
    rw [if_neg (by omega : ¬(2 ^ 32 - d) % 2 ^ 32 < 2 ^ 31)]
    omega
  refine ⟨fun x y => ⟨rfl, rfl, rfl, rfl⟩, ?_, ?_, ?_, ?_, ?_, ?_⟩ <;>
    simp only [CoDelTimeAfter, CoDelTimeAfterEq, CoDelTimeBefore, CoDelTimeBeforeEq,
      hsub1, hsub2, hi1, hi2, decide_eq_true_eq, decide_eq_false_iff_not, not_le, not_lt] <;>
    omega

/-- Witness for C6 across the wraparound point: with
`a = 2³² − 5` and `d = 10`, the wrapped time `5` is after `2³² − 5`
although its raw unsigned value is smaller. -/
theorem codelTime_wraparound_order_witness :
    CoDelTimeAfter ((4294967291 + 10) % 2 ^ 32) 4294967291 = true ∧
    (4294967291 + 10) % 2 ^ 32 = 5 :=
  ⟨(codelTime_wraparound_order 4294967291 10 (by norm_num) (by norm_num)
      (by norm_num)).2.1, by norm_num⟩

/-- C2: `okToDrop` computes `sojourn = now − ts` and: if the sojourn is
below target or the backlog is below `minBytes`, it resets
`firstAboveTime` to `none` and answers `false`; otherwise if
`firstAboveTime` is `none` it sets it to `now + interval` and answers
`false`; otherwise it answers `true` exactly when `now ≥
firstAboveTime`, so no drop is approved before the delay has persisted
a full interval. -/
theorem okToDrop_characterization (cfg : Config) (backlog ts now : Nat)
    (fat : Option Nat) :
    (CoDelTimeBefore (codelSub now ts) cfg.target = true ∨ backlog < cfg.minBytes →
      okToDrop cfg backlog ts now fat = (false, none)) ∧
    (CoDelTimeBefore (codelSub now ts) cfg.target = false → cfg.minBytes ≤ backlog →
      fat = none →
      okToDrop cfg backlog ts now fat = (false, some ((now + cfg.interval) % 2 ^ 32))) ∧
    (∀ f, CoDelTimeBefore (codelSub now ts) cfg.target = false → cfg.minBytes ≤ backlog →
      fat = some f →
      okToDrop cfg backlog ts now fat = (CoDelTimeAfterEq now f, some f)) := by
  refine ⟨?_, ?_, ?_⟩
  · intro h
    unfold okToDrop
    rw [if_pos]
    rcases h with h | h
    · exact Or.inl h
    · exact Or.inr h
  · intro h1 h2 h3
    unfold okToDrop
    rw [if_neg, h3]
    rintro (h | h)
    · rw [h1] at h
      cases h
    · omega
  · intro f h1 h2 h3
    unfold okToDrop
    rw [if_neg, h3]
    rintro (h | h)
    · rw [h1] at h
      cases h
    · omega

/-- Witness for C2: with target 5 and sojourn 0 the predicate answers
`false` and resets `firstAboveTime`. -/
theorem okToDrop_characterization_witness :
    okToDrop ⟨5, 100, 1514, 1, false, false⟩ 3000 0 0 (some 7) = (false, none) :=
  (okToDrop_characterization ⟨5, 100, 1514, 1, false, false⟩ 3000 0 0
      (some 7)).1 (Or.inl (by decide))

/-- C9: if adding the candidate item would exceed the configured
capacity limit (packet or byte), `doEnqueue` rejects it with reason
`OverlimitDrop` as a normal `false` result and the queue is unchanged
(the item never enters it); otherwise the item is appended at the FIFO
tail stamped with the current time. -/
theorem doEnqueue_overlimit_or_append (unit : SizeUnit) (maxSize now : Nat)
    (q : List Item) (sz : Nat) (e : Ecn) :
    (wouldExceed unit maxSize q sz = true →
      doEnqueue unit maxSize now q sz e = (false, q, some Reason.OverlimitDrop)) ∧
    (wouldExceed unit maxSize q sz = false →
      doEnqueue unit maxSize now q sz e = (true, q ++ [⟨sz, e, now⟩], none)) := by
  constructor
  · intro h
    unfold doEnqueue
    rw [if_pos h]
  · intro h
    unfold doEnqueue
    rw [if_neg]
    rw [h]
    exact Bool.false_ne_true

/-- Witness for C9: a one-packet limit on a queue already holding one
item rejects with `OverlimitDrop` and leaves the queue unchanged. -/
theorem doEnqueue_overlimit_or_append_witness :
    doEnqueue SizeUnit.packets 1 9 [⟨1000, Ecn.NotECT, 2⟩] 500 Ecn.NotECT =
      (false, [⟨1000, Ecn.NotECT, 2⟩], some Reason.OverlimitDrop) :=
  (doEnqueue_overlimit_or_append SizeUnit.packets 1 9 [⟨1000, Ecn.NotECT, 2⟩]
      500 Ecn.NotECT).1 (by decide)

/-- C10: for every dequeued head item, when `useL4s` is on, the item's
codepoint is `ECT1` and its sojourn exceeds `ceThreshold`, the item is
delivered marked CE immediately with reason `CeThresholdExceededMark`
and nothing is dropped, whatever the dropping state — in particular
even when the sojourn is below `target`. -/
theorem doDequeue_l4s_ce_mark (cfg : Config) (now : Nat) (item : Item)
    (rest : List Item) (s : CoDelState) (hl : cfg.useL4s = true)
    (he : item.ecn = Ecn.ECT1) (hs : cfg.ceThreshold < codelSub now item.ts) :
    doDequeue cfg now (item :: rest) s =
      ⟨some (markCE item, some Reason.CeThresholdExceededMark), rest, s, []⟩ := by
  unfold doDequeue
  rw [if_pos]
  exact ⟨by rw [hl], he, hs⟩

/-- Witness for C10: an `ECT1` head with sojourn `3` above
`ceThreshold = 1` but far below `target = 5000` is CE-marked, not
dropped, while the discipline is in the dropping state. -/
theorem doDequeue_l4s_ce_mark_witness :
    doDequeue ⟨5000, 100000, 1514, 1, true, true⟩ 3
        [⟨1000, Ecn.ECT1, 0⟩] ⟨true, some 7, 50, 4, 3, 40000⟩ =
      ⟨some (⟨1000, Ecn.CE, 0⟩, some Reason.CeThresholdExceededMark), [],
        ⟨true, some 7, 50, 4, 3, 40000⟩, []⟩ :=
  doDequeue_l4s_ce_mark ⟨5000, 100000, 1514, 1, true, true⟩ 3
    ⟨1000, Ecn.ECT1, 0⟩ [] ⟨true, some 7, 50, 4, 3, 40000⟩ rfl rfl (by decide)

/-- C4: a dequeue in the `NotDropping` state with `OkToDrop` answering
`true` makes the discipline enter `Dropping` via `enterDropState` and
perform the drop/mark decision with reason
`TargetExceededDrop`/`TargetExceededMark`; `enterDropState` sets
`count = 1` unconditionally, refines `recInvSqrt` by one Newton step
seeded from its prior value, and sets
`dropNext = ControlLaw(now, interval, recInvSqrt)`. -/
theorem doDequeue_enter_dropping (cfg : Config) (now : Nat) (item : Item)
    (rest : List Item) (s : CoDelState) (f2 : Option Nat)
    (hl4s : ¬(cfg.useL4s = true ∧ item.ecn = Ecn.ECT1 ∧
      cfg.ceThreshold < codelSub now item.ts))
    (hnd : s.dropping = false)
    (hok : okToDrop cfg (backlogBytes (item :: rest)) item.ts now
      s.firstAboveTime = (true, f2)) :
    (doDequeue cfg now (item :: rest) s =
      if ecnMark cfg item then
        ⟨some (markCE item, some Reason.TargetExceededMark), rest,
          enterDropState cfg now { s with firstAboveTime := f2 }, []⟩
      else
        let r := doDequeue cfg now rest
          (enterDropState cfg now { s with firstAboveTime := f2 })
        ⟨r.delivered, r.queue, r.state,
          (item, Reason.TargetExceededDrop) :: r.drops⟩) ∧
    (∀ u : CoDelState,
      (enterDropState cfg now u).dropping = true ∧
      (enterDropState cfg now u).count = 1 ∧
      (enterDropState cfg now u).recInvSqrt = NewtonStep u.recInvSqrt 1 ∧
      (enterDropState cfg now u).dropNext =
        ControlLaw now cfg.interval (enterDropState cfg now u).recInvSqrt) := by
  constructor
  · conv_lhs => unfold doDequeue
    rw [if_neg hl4s, hok, hnd]
    simp only [Bool.false_eq_true, if_false, if_true]
  · intro u
    exact ⟨rfl, rfl, rfl, rfl⟩

/-- Witness for C4: a concrete `NotDropping` dequeue with ECN marking
enters the dropping state and delivers the head marked. -/
theorem doDequeue_enter_dropping_witness :
    doDequeue ⟨5, 100, 1000, 1000000, true, false⟩ 300
        [⟨2000, Ecn.ECT0, 0⟩] ⟨false, some 100, 0, 0, 0, 65535⟩ =
      if ecnMark ⟨5, 100, 1000, 1000000, true, false⟩ ⟨2000, Ecn.ECT0, 0⟩ then
        ⟨some (markCE ⟨2000, Ecn.ECT0, 0⟩, some Reason.TargetExceededMark), [],
          enterDropState ⟨5, 100, 1000, 1000000, true, false⟩ 300
            { (⟨false, some 100, 0, 0, 0, 65535⟩ : CoDelState) with
                firstAboveTime := some 100 }, []⟩
      else
        let r := doDequeue ⟨5, 100, 1000, 1000000, true, false⟩ 300 []
          (enterDropState ⟨5, 100, 1000, 1000000, true, false⟩ 300
            { (⟨false, some 100, 0, 0, 0, 65535⟩ : CoDelState) with
                firstAboveTime := some 100 })
        ⟨r.delivered, r.queue, r.state,
          (⟨2000, Ecn.ECT0, 0⟩, Reason.TargetExceededDrop) :: r.drops⟩ :=
  (doDequeue_enter_dropping ⟨5, 100, 1000, 1000000, true, false⟩ 300
      ⟨2000, Ecn.ECT0, 0⟩ [] ⟨false, some 100, 0, 0, 0, 65535⟩ (some 100)
      (by decide) rfl (by decide)).1

/-- C3: a dequeue in the `Dropping` state with `OkToDrop` answering
`true` and `now ≥ dropNext` performs the drop/mark decision and updates
the state via `continueDropState`, which records `lastCount = count`
before adjustment, decrements `count` toward `lastCount` exactly when
the chase trigger `now − dropNext ≥ 8·interval ∨ now − firstAboveTime <
2·interval` holds and otherwise increments it by exactly one (so absent
chase triggers `count` strictly increases by 1 per drop), refines
`recInvSqrt` with the updated count, and schedules
`dropNext = ControlLaw(dropNext, interval, recInvSqrt)` relative to the
previous scheduled instant rather than `now`. -/
theorem doDequeue_continue_dropping (cfg : Config) (now : Nat) (item : Item)
    (rest : List Item) (s : CoDelState) (f : Nat)
    (hl4s : ¬(cfg.useL4s = true ∧ item.ecn = Ecn.ECT1 ∧
      cfg.ceThreshold < codelSub now item.ts))
    (hd : s.dropping = true)
    (hok : okToDrop cfg (backlogBytes (item :: rest)) item.ts now
      s.firstAboveTime = (true, some f))
    (hsched : CoDelTimeBefore now s.dropNext = false) :
    (doDequeue cfg now (item :: rest) s =
      if ecnMark cfg item then
        ⟨some (markCE item, some Reason.TargetExceededMark), rest,
          continueDropState cfg now { s with firstAboveTime := some f }, []⟩
      else
        let r := doDequeue cfg now rest
          (continueDropState cfg now { s with firstAboveTime := some f })
        ⟨r.delivered, r.queue, r.state,
          (item, Reason.TargetExceededDrop) :: r.drops⟩) ∧
    (∀ u : CoDelState,
      (continueDropState cfg now u).lastCount = u.count ∧
      (chaseTrigger cfg.interval now u.dropNext u.firstAboveTime = true →
        (continueDropState cfg now u).count = max u.lastCount (u.count - 1)) ∧
      (chaseTrigger cfg.interval now u.dropNext u.firstAboveTime = false →
        (continueDropState cfg now u).count = u.count + 1) ∧
      (continueDropState cfg now u).recInvSqrt =
        NewtonStep u.recInvSqrt (continueDropState cfg now u).count ∧
      (continueDropState cfg now u).dropNext =
        ControlLaw u.dropNext cfg.interval (continueDropState cfg now u).recInvSqrt) := by
  constructor
  · conv_lhs => unfold doDequeue
    rw [if_neg hl4s, hok, hd]
    simp only [if_true, hsched, Bool.false_eq_true, if_false]
  · intro u
    refine ⟨rfl, ?_, ?_, rfl, rfl⟩
    · intro h
      unfold continueDropState
      rw [h]
      simp only [if_true]
    · intro h
      unfold continueDropState
      rw [h]
      simp only [Bool.false_eq_true, if_false]

/-- Witness for C3: a concrete `Dropping` dequeue past the scheduled
drop instant with ECN marking; here the chase trigger is off, so the
count goes from 4 to 5. -/
theorem doDequeue_continue_dropping_witness :
    (doDequeue ⟨5, 100, 1000, 1000000, true, false⟩ 300
        [⟨2000, Ecn.ECT0, 0⟩] ⟨true, some 100, 250, 4, 4, 40000⟩ =
      if ecnMark ⟨5, 100, 1000, 1000000, true, false⟩ ⟨2000, Ecn.ECT0, 0⟩ then
        ⟨some (markCE ⟨2000, Ecn.ECT0, 0⟩, some Reason.TargetExceededMark), [],
          continueDropState ⟨5, 100, 1000, 1000000, true, false⟩ 300
            { (⟨true, some 100, 250, 4, 4, 40000⟩ : CoDelState) with
                firstAboveTime := some 100 }, []⟩
      else
        let r := doDequeue ⟨5, 100, 1000, 1000000, true, false⟩ 300 []
          (continueDropState ⟨5, 100, 1000, 1000000, true, false⟩ 300
            { (⟨true, some 100, 250, 4, 4, 40000⟩ : CoDelState) with
                firstAboveTime := some 100 })
        ⟨r.delivered, r.queue, r.state,
          (⟨2000, Ecn.ECT0, 0⟩, Reason.TargetExceededDrop) :: r.drops⟩) ∧
    (continueDropState ⟨5, 100, 1000, 1000000, true, false⟩ 300
        { (⟨true, some 100, 250, 4, 4, 40000⟩ : CoDelState) with
            firstAboveTime := some 100 }).count = 4 + 1 :=
  ⟨(doDequeue_continue_dropping ⟨5, 100, 1000, 1000000, true, false⟩ 300
      ⟨2000, Ecn.ECT0, 0⟩ [] ⟨true, some 100, 250, 4, 4, 40000⟩ 100
      (by decide) rfl (by decide) (by decide)).1,
   ((doDequeue_continue_dropping ⟨5, 100, 1000, 1000000, true, false⟩ 300
      ⟨2000, Ecn.ECT0, 0⟩ [] ⟨true, some 100, 250, 4, 4, 40000⟩ 100
      (by decide) rfl (by decide) (by decide)).2
      { (⟨true, some 100, 250, 4, 4, 40000⟩ : CoDelState) with
          firstAboveTime := some 100 }).2.2.1 (by decide)⟩

/-- C8: `doDequeue` answers `none` only when the queue is (or becomes)
empty — whenever it answers `none`, no item remains, because an actual
drop makes the engine continue to the next queued item — and on an
empty queue it always answers `none`, leaves `dropping = false` and
drops nothing. -/
theorem doDequeue_none_only_when_empty (cfg : Config) (now : Nat)
    (q : List Item) (s : CoDelState) :
    ((doDequeue cfg now q s).delivered = none → (doDequeue cfg now q s).queue = []) ∧
    (q = [] →
      (doDequeue cfg now q s).delivered = none ∧
      (doDequeue cfg now q s).state.dropping = false ∧
      (doDequeue cfg now q s).queue = [] ∧
      (doDequeue cfg now q s).drops = []) := by
  induction q generalizing s with
  | nil =>
    refine ⟨fun _ => rfl, fun _ => ⟨rfl, rfl, rfl, rfl⟩⟩
  | cons item rest ih =>
    refine ⟨?_, fun h => by cases h⟩
    intro h
    unfold doDequeue at h ⊢
    by_cases h1 : cfg.useL4s = true ∧ item.ecn = Ecn.ECT1 ∧
        cfg.ceThreshold < codelSub now item.ts
    · rw [if_pos h1] at h
      cases h
    · rw [if_neg h1] at h ⊢
      by_cases h2 : s.dropping = true
      · rw [h2] at h ⊢
        simp only [if_true] at h ⊢
        by_cases h3 : (okToDrop cfg (backlogBytes (item :: rest)) item.ts now
            s.firstAboveTime).1 = true
        · rw [h3] at h ⊢
          simp only [if_true] at h ⊢
          by_cases h4 : CoDelTimeBefore now s.dropNext = true
          · rw [h4] at h
            simp only [if_true] at h
            cases h
          · rw [Bool.not_eq_true] at h4
            rw [h4] at h ⊢
            simp only [Bool.false_eq_true, if_false] at h ⊢
            by_cases h5 : ecnMark cfg item = true
            · rw [h5] at h
              simp only [if_true] at h
              cases h
            · rw [Bool.not_eq_true] at h5
              rw [h5] at h ⊢
              simp only [Bool.false_eq_true, if_false] at h ⊢
              exact (ih _).1 h
        · rw [Bool.not_eq_true] at h3
          rw [h3] at h
          simp only [Bool.false_eq_true, if_false] at h
          cases h
      · rw [Bool.not_eq_true] at h2
        rw [h2] at h ⊢
        simp only [Bool.false_eq_true, if_false] at h ⊢
        by_cases h3 : (okToDrop cfg (backlogBytes (item :: rest)) item.ts now
            s.firstAboveTime).1 = true
        · rw [h3] at h ⊢
          simp only [if_true] at h ⊢
          by_cases h5 : ecnMark cfg item = true
          · rw [h5] at h
            simp only [if_true] at h
            cases h
          · rw [Bool.not_eq_true] at h5
            rw [h5] at h ⊢
            simp only [Bool.false_eq_true, if_false] at h ⊢
            exact (ih _).1 h
        · rw [Bool.not_eq_true] at h3
          rw [h3] at h
          simp only [Bool.false_eq_true, if_false] at h
          cases h

/-- Witness for C8: dequeueing an empty queue while in the dropping
state yields nothing, resets `dropping`, and drops nothing. -/
theorem doDequeue_none_only_when_empty_witness :
    (doDequeue ⟨5, 100, 1514, 1, false, false⟩ 42 []
        ⟨true, some 7, 9, 3, 2, 40000⟩).delivered = none ∧
    (doDequeue ⟨5, 100, 1514, 1, false, false⟩ 42 []
        ⟨true, some 7, 9, 3, 2, 40000⟩).state.dropping = false ∧
    (doDequeue ⟨5, 100, 1514, 1, false, false⟩ 42 []
        ⟨true, some 7, 9, 3, 2, 40000⟩).queue = [] ∧
    (doDequeue ⟨5, 100, 1514, 1, false, false⟩ 42 []
        ⟨true, some 7, 9, 3, 2, 40000⟩).drops = [] :=
  (doDequeue_none_only_when_empty ⟨5, 100, 1514, 1, false, false⟩ 42 []
      ⟨true, some 7, 9, 3, 2, 40000⟩).2 rfl

end CoDel
